import Mathlib

/-!
Verification of the ISD training core (`train_isd.py`, `utils.py`).

The development shallowly embeds the ISD model of `train_isd.py`:
tensors are lists of rationals (reals where the source formula needs
`cos` or `sqrt`), the memory queue is a list of row vectors together
with a write cursor, and network parameters are lists of
value/requires-grad records.  The ResNet encoders, the prediction head
and the row-wise L2 normalisation live in the external `resnet` module
and in the ML framework; they enter the embedding as opaque function
parameters (`NetFns`), exactly as the spec treats them (collaborators
providing encode capabilities).
-/

namespace ISDModel

/-- A 1-D float tensor: row vector of rationals. -/
abbrev Vec := List ℚ

/-- A 2-D float tensor: list of row vectors. -/
abbrev Mat := List Vec

/-- Dot product of two rows (`torch` inner product). -/
def dot (x y : Vec) : ℚ := ((x.zip y).map fun p => p.1 * p.2).sum

/-- `torch.mm(A, B.t())`: entry (i, j) is `dot (A i) (B j)`. -/
def mmT (A B : Mat) : Mat := A.map fun a => B.map fun b => dot a b

/-- In-place `sim /= T` of `train_isd.py` lines 191-192. -/
def scaleDiv (A : Mat) (t : ℚ) : Mat := A.map fun r => r.map fun x => x / t

/-- Slice assignment `xs[ptr : ptr + len(ys)] = ys` for `ptr + len(ys) ≤ len(xs)`. -/
def writeSlice (xs : List α) (ptr : ℕ) (ys : List α) : List α :=
  xs.take ptr ++ ys ++ xs.drop (ptr + ys.length)

/-- Fancy indexing `xs[ids]` of a tensor by an index tensor. -/
def gather (xs : List α) (ids : List ℕ) (d : α) : List α :=
  ids.map fun j => xs.getD j d

/-- `dst.index_copy_(0, inds, vals)`: for each position `p`,
write `vals[p]` into slot `inds[p]` of `dst`. -/
def indexCopy : List ℕ → List ℕ → List ℕ → List ℕ
  | dst, [], _ => dst
  | dst, _, [] => dst
  | dst, i :: is, v :: vs => indexCopy (dst.set i v) is vs

/-- `get_shuffle_ids(bsz)` (`train_isd.py` lines 200-206).  The random
draw `torch.randperm(bsz)` is passed in as `forward_inds`; the inverse
is built exactly as in the source:
`backward_inds = zeros(bsz); backward_inds.index_copy_(0, forward_inds, arange(bsz))`. -/
def get_shuffle_ids (forward_inds : List ℕ) (bsz : ℕ) : List ℕ × List ℕ :=
  (forward_inds, indexCopy (List.replicate bsz 0) forward_inds (List.range bsz))

/-- One network parameter tensor: its (flattened) value and its
`requires_grad` flag. -/
structure Param where
  value : ℚ
  requires_grad : Bool
  deriving DecidableEq, Repr

/-- State of the `ISD` module (`train_isd.py` lines 87-132): the three
parameterised sub-modules, the queue buffer and the queue pointer. -/
structure ISDState where
  K : ℕ
  m : ℚ
  T : ℚ
  encoder_q : List Param
  encoder_k : List Param
  predict_q : List Param
  queue : Mat
  queue_ptr : ℕ
  deriving DecidableEq, Repr

/-- `ISD.__init__` (`train_isd.py` lines 88-132).  `archResNet` models the
check `'ResNet' in arch` (line 96; line 119 raises `ValueError` otherwise);
`q0` and `p0` are the framework's random initial values of the query
encoder and the prediction head (`requires_grad` defaults to true);
the key encoder receives a copy of the query values with
`requires_grad = False` (lines 122-124); `queue0` is the initial queue
buffer contents (lines 127-129, numerics modelled separately over ℝ
by `queueInit` below); the pointer starts at 0 (line 132).
No relation between the queue size and any batch size is checked here. -/
def ISD.init (archResNet : Bool) (K : ℕ) (m T : ℚ) (q0 p0 : List ℚ) (queue0 : Mat) :
    Option ISDState :=
  if archResNet then
    some { K := K, m := m, T := T
           encoder_q := q0.map fun v => { value := v, requires_grad := true }
           encoder_k := q0.map fun v => { value := v, requires_grad := false }
           predict_q := p0.map fun v => { value := v, requires_grad := true }
           queue := queue0, queue_ptr := 0 }
  else none

/-- The parameter-tensor blend of `_momentum_update_key_encoder`
(`train_isd.py` line 138): `param_k.data = param_k.data * m + param_q.data * (1 - m)`.
Only `.data` (the value) is written; `requires_grad` is untouched. -/
def momentumBlend (ks qs : List Param) (m : ℚ) : List Param :=
  (ks.zip qs).map fun p => { p.1 with value := p.1.value * m + p.2.value * (1 - m) }

/-- `ISD._momentum_update_key_encoder` (`train_isd.py` lines 135-138). -/
def momentum_update_key_encoder (s : ISDState) : ISDState :=
  { s with encoder_k := momentumBlend s.encoder_k s.encoder_q s.m }

/-- `ISD._dequeue_and_enqueue` (`train_isd.py` lines 148-159): read the
batch size and the pointer, `assert self.K % batch_size == 0` (line 153),
overwrite `queue[ptr : ptr + batch_size]` (line 156; the framework rejects
the slice assignment if the slice is shorter than the batch), and advance
the pointer modulo `K` (lines 157-159). -/
def dequeue_and_enqueue (K : ℕ) (queue : Mat) (ptr : ℕ) (keys : Mat) :
    Except String (Mat × ℕ) :=
  if K % keys.length ≠ 0 then .error "assert self.K % batch_size == 0"
  else if queue.length < ptr + keys.length then .error "slice assignment shape mismatch"
  else .ok (writeSlice queue ptr keys, (ptr + keys.length) % K)

/-- The external networks: query encoder, prediction head and key
encoder (from the `resnet` module, applied to a whole batch so that
batch-statistics layers are captured), and the framework's row-wise
L2 normalisation `F.normalize(·, dim=1)`.  The two encoders receive the
current parameter list of their branch. -/
structure NetFns where
  encQ : List Param → Mat → Mat
  predQ : Mat → Mat
  encK : List Param → Mat → Mat
  normRows : Mat → Mat

/-- The operations of one `ISD.forward` call, in the order the source
statements execute them. -/
inductive FwOp where
  | encodeQuery | predictQuery | momentumUpdate | shuffleKeys | encodeKey
  | unshuffleKeys | snapshotQueue | simQuery | simKey | enqueueKeys
  deriving DecidableEq, Repr

/-- The query-branch embedding pipeline of `ISD.forward`
(lines 164-167): encode, predict, row-normalise. -/
def queryEmb (f : NetFns) (s : ISDState) (im_q : Mat) : Mat :=
  f.normRows (f.predQ (f.encQ s.encoder_q im_q))

/-- The key-branch embedding pipeline of `ISD.forward` (lines 172-183):
momentum-update the key encoder, shuffle the key batch, encode with the
updated key parameters, row-normalise, unshuffle. -/
def keyEmb (f : NetFns) (s : ISDState) (im_k : Mat) (randPerm : List ℕ) : Mat :=
  let s1 := momentum_update_key_encoder s
  let ids := get_shuffle_ids randPerm im_k.length
  gather (f.normRows (f.encK s1.encoder_k (gather im_k ids.1 []))) ids.2 []

/-- `ISD.forward` (`train_isd.py` lines 162-197), instrumented with the
trace of its operations in source order.  `randPerm` is the
`torch.randperm` draw used by `get_shuffle_ids`.  Statement order:
query encode (164) and prediction (166-167); momentum update (172);
shuffle (175-176); key encode (179-180); unshuffle (183); queue
snapshot `self.queue.clone().detach()` (186); the two similarity
products against the snapshot (187-188) scaled by `1/T` (191-192); and
only then the enqueue (195). -/
def ISD.forward (f : NetFns) (s : ISDState) (im_q im_k : Mat) (randPerm : List ℕ) :
    List FwOp × Except String (Mat × Mat × ISDState) :=
  let q := f.normRows (f.predQ (f.encQ s.encoder_q im_q))
  let s1 := momentum_update_key_encoder s
  let ids := get_shuffle_ids randPerm im_k.length
  let im_k2 := gather im_k ids.1 []
  let k1 := f.normRows (f.encK s1.encoder_k im_k2)
  let k := gather k1 ids.2 []
  let queueSnap := s1.queue
  let sim_q := scaleDiv (mmT q queueSnap) s1.T
  let sim_k := scaleDiv (mmT k queueSnap) s1.T
  let trace := [FwOp.encodeQuery, FwOp.predictQuery, FwOp.momentumUpdate,
    FwOp.shuffleKeys, FwOp.encodeKey, FwOp.unshuffleKeys, FwOp.snapshotQueue,
    FwOp.simQuery, FwOp.simKey, FwOp.enqueueKeys]
  (trace,
    (dequeue_and_enqueue s1.K s1.queue s1.queue_ptr k).map
      fun qp => (sim_q, sim_k, { s1 with queue := qp.1, queue_ptr := qp.2 }))

/-- A trivial instantiation of the external networks, used to run the
embedded training core on concrete inputs: both encoders and the
prediction head pass the batch through unchanged, and so does the
row normalisation (on rows that are already unit rows this is exact). -/
def idNetFns : NetFns :=
  { encQ := fun _ b => b, predQ := fun b => b, encK := fun _ b => b,
    normRows := fun b => b }

/-- The optimizer's parameter collection, built in `main`
(`train_isd.py` line 332): `[p for p in isd.parameters() if p.requires_grad]`,
where `isd.parameters()` lists the query encoder, the key encoder and
the prediction head in registration order. -/
def trainableParams (s : ISDState) : List Param :=
  (s.encoder_q ++ s.encoder_k ++ s.predict_q).filter fun p => p.requires_grad

/-- One SGD write-back over a module's parameter list.  The optimizer
mutates exactly the tensors in its collection — those whose
`requires_grad` was set when `main` built it (line 332-336); `u` gives
the framework's update (gradient, weight decay, momentum buffer) for
the parameter at each global position. -/
def sgdWrite (u : ℕ → ℚ → ℚ) (off : ℕ) (ps : List Param) : List Param :=
  ps.mapIdx fun i p => if p.requires_grad then { p with value := u (off + i) p.value } else p

/-- `optimizer.step()` as called in `train_student` (line 403): apply
the SGD write-back across the whole model's parameters. -/
def optimizerStep (s : ISDState) (u : ℕ → ℚ → ℚ) : ISDState :=
  { s with
    encoder_q := sgdWrite u 0 s.encoder_q
    encoder_k := sgdWrite u s.encoder_q.length s.encoder_k
    predict_q := sgdWrite u (s.encoder_q.length + s.encoder_k.length) s.predict_q }

/-- Squared L2 norm of a real row vector. -/
noncomputable def l2normSq (v : List ℝ) : ℝ := (v.map fun x => x ^ 2).sum

/-- The queue initialisation of `ISD.__init__` (`train_isd.py` lines
127-129) on the random draw `raw = torch.randn(K, out_dim)`:
`nn.functional.normalize(raw, dim=0)`, i.e. every entry is divided by
`max(‖column‖₂, 1e-12)` — the norm is taken along `dim=0`, across the
`K` queue slots, not along each stored row. -/
noncomputable def queueInit (raw : List (List ℝ)) : List (List ℝ) :=
  raw.map fun row => (List.range row.length).map fun j =>
    row.getD j 0 / max (Real.sqrt ((raw.map fun r => (r.getD j 0) ^ 2).sum)) (1 / 10 ^ 12)

/-- A tiny concrete ISD state (`K = 2`, one-dimensional embeddings,
`m = 1/2`, `T = 1`) for running the training core on explicit inputs;
it is exactly the state `ISD.init true 2 (1/2) 1 [1] [] [[5], [7]]`
produces. -/
def egState : ISDState :=
  { K := 2, m := 1/2, T := 1,
    encoder_q := [{ value := 1, requires_grad := true }],
    encoder_k := [{ value := 1, requires_grad := false }],
    predict_q := [], queue := [[5], [7]], queue_ptr := 0 }

/-- A concrete ISD state whose key and query parameter values differ
(key 3, query 5, `m = 9/10`), exercising the momentum blend away from
the post-construction diagonal `k0 = q0`. -/
def egBlendState : ISDState :=
  { K := 2, m := 9/10, T := 1,
    encoder_q := [{ value := 5, requires_grad := true }],
    encoder_k := [{ value := 3, requires_grad := false }],
    predict_q := [], queue := [[5], [7]], queue_ptr := 0 }

/-- A concrete ISD state with `K = 6` (not divisible by batch size 4),
as produced by `ISD.init true 6 (1/2) 1 [1] [] [six zero rows]`. -/
def egState6 : ISDState :=
  { K := 6, m := 1/2, T := 1,
    encoder_q := [{ value := 1, requires_grad := true }],
    encoder_k := [{ value := 1, requires_grad := false }],
    predict_q := [], queue := [[0], [0], [0], [0], [0], [0]], queue_ptr := 0 }

/-- One optimizer parameter group: its learning rate plus the rest of
its per-group state (weight decay, momentum buffers, ...), which
`adjust_learning_rate` never touches. -/
structure ParamGroup where
  lr : ℝ
  rest : List ℚ

/-- The scheduler-relevant configuration options of `parse_option`
(`train_isd.py` lines 42-47). -/
structure OptCfg where
  cos : Bool
  learning_rate : ℝ
  epochs : ℕ
  lr_decay_epochs : List ℕ
  lr_decay_rate : ℝ

/-- `adjust_learning_rate` (`utils.py` lines 20-33).  Cosine mode
(lines 21-26): `new_lr = lr · 0.5 · (1 + cos(π · (epoch−1) / epochs))`,
written into every parameter group.  Step mode (lines 27-33):
`steps = np.sum(epoch > lr_decay_epochs)`, and only `if steps > 0` is
`new_lr = lr · lr_decay_rate ** steps` written into the groups;
otherwise the function returns without touching the optimizer. -/
noncomputable def adjust_learning_rate (epoch : ℕ) (opt : OptCfg)
    (param_groups : List ParamGroup) : List ParamGroup :=
  if opt.cos then
    let new_lr := opt.learning_rate * (1 / 2) *
      (1 + Real.cos (Real.pi * ((epoch : ℝ) - 1) / (opt.epochs : ℝ)))
    param_groups.map fun g => { g with lr := new_lr }
  else
    let steps := (opt.lr_decay_epochs.filter fun ms => decide (ms < epoch)).length
    if 0 < steps then
      let new_lr := opt.learning_rate * opt.lr_decay_rate ^ steps
      param_groups.map fun g => { g with lr := new_lr }
    else param_groups

end ISDModel

namespace ISDModel

/-- Helper: indexing a zip at a position where both lists hold a value. -/
theorem zip_getElem?_of_both {α β : Type} (l1 : List α) (l2 : List β) (i : ℕ)
    (a : α) (b : β) (h1 : l1[i]? = some a) (h2 : l2[i]? = some b) :
    (l1.zip l2)[i]? = some (a, b) := by
  induction l1 generalizing l2 i with
  | nil => simp at h1
  | cons x l1t ih =>
    cases l2 with
    | nil => simp at h2
    | cons y l2t =>
      cases i with
      | zero =>
        simp only [List.getElem?_cons_zero, Option.some.injEq] at h1 h2
        simp [List.zip_cons_cons, h1, h2]
      | succ j =>
        simp only [List.zip_cons_cons, List.getElem?_cons_succ] at h1 h2 ⊢
        exact ih l2t j h1 h2

/-- C4: in every model state — whatever the current key parameter value
`k0` and query parameter value `q0` at a position — one momentum update
sets the key parameter value at that position to `m·k0 + (1−m)·q0`; and
because construction copies the query parameters into the key
parameters, a freshly constructed model has identical key and query
values and the very first momentum update after construction leaves the
key parameter values equal to the query parameter values. -/
theorem momentum_update_blends_and_first_update_is_identity (s : ISDState) :
    (∀ i k0 q0, s.encoder_k.get? i = some k0 → s.encoder_q.get? i = some q0 →
      ((momentum_update_key_encoder s).encoder_k.map Param.value).get? i
        = some (s.m * k0.value + (1 - s.m) * q0.value)) ∧
    (∀ (archResNet : Bool) (K : ℕ) (m T : ℚ) (q0 p0 : List ℚ) (queue0 : Mat) (s0 : ISDState),
      ISD.init archResNet K m T q0 p0 queue0 = some s0 →
      s0.encoder_k.map Param.value = s0.encoder_q.map Param.value ∧
      (momentum_update_key_encoder s0).encoder_k.map Param.value
        = s0.encoder_q.map Param.value) := by
  constructor
  · intro i k0 q0 hk hq
    simp only [List.get?_eq_getElem?] at hk hq ⊢
    simp only [momentum_update_key_encoder, momentumBlend, List.map_map, List.getElem?_map,
      zip_getElem?_of_both s.encoder_k s.encoder_q i k0 q0 hk hq, Option.map_some',
      Option.some.injEq]
    show k0.value * s.m + q0.value * (1 - s.m) = s.m * k0.value + (1 - s.m) * q0.value
    ring
  · intro archResNet K m T q0 p0 queue0 s0 hinit
    unfold ISD.init at hinit
    by_cases h : archResNet
    · simp only [h, if_true, Option.some.injEq] at hinit
      subst hinit
      constructor
      · simp
      · simp only [momentum_update_key_encoder, momentumBlend]
        rw [List.zip_map']
        simp only [List.map_map]
        apply List.map_congr_left
        intro a _
        simp
        ring
    · simp [h] at hinit

/-- C2: for a queue of size `K`, a pointer with a full batch of room
before the wrap point, and a batch whose size divides `K`, the enqueue
succeeds, overwrites exactly `queue[ptr : ptr + batch_size]` with the
submitted rows in order, leaves every other slot unchanged and sets the
pointer to `(ptr + batch_size) % K`. -/
theorem enqueue_overwrites_slice_and_advances_ptr
    (K : ℕ) (queue keys : Mat) (ptr : ℕ)
    (hq : queue.length = K) (hbs : 0 < keys.length)
    (hdvd : keys.length ∣ K) (hle : ptr + keys.length ≤ K) :
    ∃ q2 ptr2, dequeue_and_enqueue K queue ptr keys = .ok (q2, ptr2) ∧
      ptr2 = (ptr + keys.length) % K ∧ q2.length = K ∧
      (∀ i, ptr ≤ i → i < ptr + keys.length → q2[i]? = keys[i - ptr]?) ∧
      (∀ i, i < ptr → q2[i]? = queue[i]?) ∧
      (∀ i, ptr + keys.length ≤ i → q2[i]? = queue[i]?) := by
  have hmod : K % keys.length = 0 := Nat.mod_eq_zero_of_dvd hdvd
  have hlen : ¬ (queue.length < ptr + keys.length) := by omega
  refine ⟨writeSlice queue ptr keys, (ptr + keys.length) % K, ?_, rfl, ?_, ?_, ?_, ?_⟩
  · simp [dequeue_and_enqueue, hmod, hlen]
  · simp [writeSlice]
    omega
  · intro i h1 h2
    have htake : (queue.take ptr).length = ptr := by simp; omega
    rw [writeSlice, List.append_assoc, List.getElem?_append_right (by omega), htake,
      List.getElem?_append_left (by omega)]
  · intro i h1
    have htake : i < (queue.take ptr).length := by simp; omega
    rw [writeSlice, List.append_assoc, List.getElem?_append_left htake,
      List.getElem?_take_of_lt h1]
  · intro i h1
    have htake : (queue.take ptr).length = ptr := by simp; omega
    have hkeys : ((queue.take ptr) ++ keys).length = ptr + keys.length := by
      simp; omega
    rw [writeSlice, List.getElem?_append_right (by rw [hkeys]; omega), hkeys,
      List.getElem?_drop]
    congr 1
    omega

/-- Closed instance of the enqueue theorem at the spec's Scenario A:
`K = 8`, `batch_size = 4`.  Inserting `B1` then `B2` into a fresh queue
yields `[B1, B2]` with the pointer back at 0; inserting `B3` then
yields `[B3, B2]` with pointer 4.  The first conjunct applies the
theorem at the first insertion; the chain of equalities evaluates the
three insertions concretely. -/
theorem enqueue_overwrites_slice_witness :
    (∃ q2 ptr2,
      dequeue_and_enqueue 8 (List.replicate 8 [(0 : ℚ)]) 0 [[1], [2], [3], [4]] = .ok (q2, ptr2) ∧
      ptr2 = (0 + 4) % 8 ∧ q2.length = 8 ∧
      (∀ i, 0 ≤ i → i < 0 + 4 → q2[i]? = [[(1 : ℚ)], [2], [3], [4]][i - 0]?) ∧
      (∀ i, i < 0 → q2[i]? = (List.replicate 8 [(0 : ℚ)])[i]?) ∧
      (∀ i, 0 + 4 ≤ i → q2[i]? = (List.replicate 8 [(0 : ℚ)])[i]?)) ∧
    dequeue_and_enqueue 8 (List.replicate 8 [(0 : ℚ)]) 0 [[1], [2], [3], [4]]
      = .ok ([[1], [2], [3], [4], [0], [0], [0], [0]], 4) ∧
    dequeue_and_enqueue 8 [[(1 : ℚ)], [2], [3], [4], [0], [0], [0], [0]] 4 [[5], [6], [7], [8]]
      = .ok ([[1], [2], [3], [4], [5], [6], [7], [8]], 0) ∧
    dequeue_and_enqueue 8 [[(1 : ℚ)], [2], [3], [4], [5], [6], [7], [8]] 0 [[9], [10], [11], [12]]
      = .ok ([[9], [10], [11], [12], [5], [6], [7], [8]], 4) := by
  refine ⟨?_, rfl, rfl, rfl⟩
  have h4 : ([[(1 : ℚ)], [2], [3], [4]] : Mat).length = 4 := rfl
  exact enqueue_overwrites_slice_and_advances_ptr 8 (List.replicate 8 [(0 : ℚ)])
    [[1], [2], [3], [4]] 0 (by simp) (by simp) (by rw [h4]; decide) (by rw [h4]; decide)

theorem indexCopy_length (dst is vs : List ℕ) :
    (indexCopy dst is vs).length = dst.length := by
  induction is generalizing dst vs with
  | nil => cases vs <;> rfl
  | cons i is2 ih =>
    cases vs with
    | nil => rfl
    | cons v vs2 => rw [indexCopy, ih, List.length_set]

theorem indexCopy_getElem?_of_not_mem {j : ℕ} (dst : List ℕ) {is : List ℕ} (vs : List ℕ)
    (h : j ∉ is) : (indexCopy dst is vs)[j]? = dst[j]? := by
  induction is generalizing dst vs with
  | nil => cases vs <;> rfl
  | cons i is2 ih =>
    cases vs with
    | nil => rfl
    | cons v vs2 =>
      have hij : i ≠ j := by
        rintro rfl
        exact h (List.mem_cons_self i is2)
      rw [indexCopy, ih (dst.set i v) vs2 (fun hm => h (List.mem_cons_of_mem i hm)),
        List.getElem?_set_ne hij]

theorem indexCopy_getElem?_at_write (dst : List ℕ) (is vs : List ℕ)
    (hnd : is.Nodup) (p : ℕ) (hp : p < is.length) (hpv : p < vs.length)
    (hb : ∀ x ∈ is, x < dst.length) :
    (indexCopy dst is vs)[is.getD p 0]? = some (vs.getD p 0) := by
  induction is generalizing dst vs p with
  | nil => simp at hp
  | cons i is2 ih =>
    cases vs with
    | nil => simp at hpv
    | cons v vs2 =>
      cases p with
      | zero =>
        rw [indexCopy]
        have hni : i ∉ is2 := (List.nodup_cons.mp hnd).1
        rw [show (i :: is2).getD 0 0 = i from rfl,
          show (v :: vs2).getD 0 0 = v from rfl,
          indexCopy_getElem?_of_not_mem _ _ hni,
          List.getElem?_set_eq_of_lt v (hb i (List.mem_cons_self i is2))]
      | succ p2 =>
        rw [indexCopy]
        have := ih (dst.set i v) vs2 (List.nodup_cons.mp hnd).2 p2
          (by simpa using hp) (by simpa using hpv)
          (fun x hx => by rw [List.length_set]; exact hb x (List.mem_cons_of_mem i hx))
        simpa using this

theorem indexCopy_mem (dst is vs : List ℕ) (x : ℕ) (hx : x ∈ indexCopy dst is vs) :
    x ∈ dst ∨ x ∈ vs := by
  induction is generalizing dst vs with
  | nil =>
    cases vs with
    | nil => exact Or.inl hx
    | cons v vs2 => exact Or.inl hx
  | cons i is2 ih =>
    cases vs with
    | nil => exact Or.inl hx
    | cons v vs2 =>
      rw [indexCopy] at hx
      rcases ih _ _ hx with h1 | h2
      · rcases List.mem_or_eq_of_mem_set h1 with h3 | h4
        · exact Or.inl h3
        · exact Or.inr (h4 ▸ List.mem_cons_self v vs2)
      · exact Or.inr (List.mem_cons_of_mem v h2)

theorem gather_getElem?_of_lt {α : Type} (xs : List α) (ids : List ℕ) (d : α) (i : ℕ)
    (hi : i < ids.length) :
    (gather xs ids d)[i]? = some (xs.getD (ids.getD i 0) d) := by
  rw [gather, List.getElem?_map, List.getElem?_eq_getElem hi, Option.map_some']
  simp [List.getD_eq_getElem?_getD, List.getElem?_eq_getElem hi]

/-- C3: for every batch size `n` and every permutation draw of
`[0, n)`, `get_shuffle_ids` returns that permutation together with its
exact inverse: `inverse[forward[i]] = i` for every `i < n`, and
gathering any length-`n` sequence by `forward` and then by `inverse`
restores the original sequence. -/
theorem shuffle_ids_inverse_round_trip (n : ℕ) (fperm : List ℕ)
    (hperm : fperm.Perm (List.range n)) :
    (∀ i, i < n → (get_shuffle_ids fperm n).2.getD ((get_shuffle_ids fperm n).1.getD i 0) 0 = i) ∧
    (∀ {α : Type} (xs : List α) (d : α), xs.length = n →
      gather (gather xs (get_shuffle_ids fperm n).1 d) (get_shuffle_ids fperm n).2 d = xs) := by
  have hlen : fperm.length = n := by rw [hperm.length_eq, List.length_range]
  have hnd : fperm.Nodup := hperm.nodup_iff.mpr (List.nodup_range n)
  have hmem : ∀ x, x ∈ fperm ↔ x < n := by
    intro x
    rw [hperm.mem_iff, List.mem_range]
  have hbwd : ∀ i, i < n →
      (indexCopy (List.replicate n 0) fperm (List.range n)).getD (fperm.getD i 0) 0 = i := by
    intro i hi
    have h := indexCopy_getElem?_at_write (List.replicate n 0) fperm (List.range n) hnd i
      (by omega) (by rw [List.length_range]; omega)
      (fun x hx => by rw [List.length_replicate]; exact (hmem x).mp hx)
    rw [List.getD_eq_getElem?_getD, h, List.getD_eq_getElem?_getD,
      List.getElem?_range hi]
    rfl
  have hbwdlen : (indexCopy (List.replicate n 0) fperm (List.range n)).length = n := by
    rw [indexCopy_length, List.length_replicate]
  have hbwdmem : ∀ j, j < n →
      (indexCopy (List.replicate n 0) fperm (List.range n)).getD j 0 < n := by
    intro j hj
    have hjlt : j < (indexCopy (List.replicate n 0) fperm (List.range n)).length := by omega
    have hmem2 : (indexCopy (List.replicate n 0) fperm (List.range n)).getD j 0
        ∈ indexCopy (List.replicate n 0) fperm (List.range n) := by
      rw [List.getD_eq_getElem?_getD, List.getElem?_eq_getElem hjlt]
      exact List.getElem_mem _
    rcases indexCopy_mem _ _ _ _ hmem2 with h1 | h2
    · have := List.eq_of_mem_replicate h1
      omega
    · exact List.mem_range.mp h2
  have hfb : ∀ j, j < n →
      fperm.getD ((indexCopy (List.replicate n 0) fperm (List.range n)).getD j 0) 0 = j := by
    intro j hj
    have hjf : j ∈ fperm := (hmem j).mpr hj
    rcases List.mem_iff_get.mp hjf with ⟨⟨p, hplt⟩, hpj⟩
    have hpd : fperm.getD p 0 = j := by
      rw [List.getD_eq_getElem?_getD, List.getElem?_eq_getElem hplt]
      simpa using hpj
    rw [← hpd, hbwd p (by omega), hpd]
  refine ⟨hbwd, ?_⟩
  intro α xs d hxs
  apply List.ext_getElem?
  intro i
  show (gather (gather xs fperm d)
      (indexCopy (List.replicate n 0) fperm (List.range n)) d)[i]? = xs[i]?
  by_cases hi : i < n
  · rw [gather_getElem?_of_lt _ _ _ i (by omega)]
    have hj := hbwdmem i hi
    have h2 : (gather xs fperm d).getD
        ((indexCopy (List.replicate n 0) fperm (List.range n)).getD i 0) d
        = xs.getD (fperm.getD ((indexCopy (List.replicate n 0) fperm
            (List.range n)).getD i 0) 0) d := by
      rw [List.getD_eq_getElem?_getD, gather_getElem?_of_lt _ _ _ _ (by omega)]
      rfl
    rw [h2, hfb i hi, List.getD_eq_getElem?_getD,
      List.getElem?_eq_getElem (show i < xs.length by omega)]
    rfl
  · have h1 : (gather (gather xs fperm d) (indexCopy (List.replicate n 0) fperm
        (List.range n)) d)[i]? = none := by
      rw [gather, List.getElem?_map,
        show (indexCopy (List.replicate n 0) fperm (List.range n))[i]? = none by
          rw [List.getElem?_eq_none_iff]
          omega]
      rfl
    rw [h1, eq_comm, List.getElem?_eq_none_iff]
    omega

/-- Closed instance of the shuffle theorem at `n = 3` with the draw
`[2, 0, 1]`, plus a concrete round trip on `[10, 20, 30]`. -/
theorem shuffle_ids_inverse_witness :
    ((∀ i, i < 3 → (get_shuffle_ids [2, 0, 1] 3).2.getD
        ((get_shuffle_ids [2, 0, 1] 3).1.getD i 0) 0 = i) ∧
     (∀ {α : Type} (xs : List α) (d : α), xs.length = 3 →
       gather (gather xs (get_shuffle_ids [2, 0, 1] 3).1 d)
         (get_shuffle_ids [2, 0, 1] 3).2 d = xs)) ∧
    gather (gather [(10 : ℚ), 20, 30] (get_shuffle_ids [2, 0, 1] 3).1 0)
      (get_shuffle_ids [2, 0, 1] 3).2 0 = [10, 20, 30] :=
  ⟨shuffle_ids_inverse_round_trip 3 [2, 0, 1] (by decide), by decide⟩

/-- C8: in cosine mode the scheduler overwrites the learning rate of
every parameter group with `base_lr · 0.5 · (1 + cos(π·(epoch−1)/total_epochs))`
(leaving the rest of each group untouched); at the spec's Scenario B
(`base_lr = 0.1`, `total_epochs = 100`) epoch 1 yields exactly `0.1`
and epoch 100 yields a rate in `[0, 1/1000)`. -/
theorem cosine_mode_formula_and_scenario_B :
    (∀ (epoch : ℕ) (base : ℝ) (N : ℕ) (ms : List ℕ) (rate : ℝ) (groups : List ParamGroup),
      adjust_learning_rate epoch ⟨true, base, N, ms, rate⟩ groups
        = groups.map fun g => { g with
            lr := base * (1 / 2) * (1 + Real.cos (Real.pi * ((epoch : ℝ) - 1) / (N : ℝ))) }) ∧
    (∀ (g : ParamGroup) (ms : List ℕ) (rate : ℝ),
      (adjust_learning_rate 1 ⟨true, 0.1, 100, ms, rate⟩ [g]).map ParamGroup.lr = [0.1]) ∧
    (∀ (g : ParamGroup) (ms : List ℕ) (rate : ℝ), ∃ l,
      (adjust_learning_rate 100 ⟨true, 0.1, 100, ms, rate⟩ [g]).map ParamGroup.lr = [l] ∧
      0 ≤ l ∧ l < 1 / 1000) := by
  refine ⟨?_, ?_, ?_⟩
  · intro epoch base N ms rate groups
    simp [adjust_learning_rate]
  · intro g ms rate
    simp [adjust_learning_rate]
    norm_num
  · intro g ms rate
    refine ⟨0.1 * (1 / 2) *
      (1 + Real.cos (Real.pi * (((100 : ℕ) : ℝ) - 1) / ((100 : ℕ) : ℝ))), ?_, ?_, ?_⟩
    · simp [adjust_learning_rate]
    · have h1 : Real.cos (Real.pi * (((100 : ℕ) : ℝ) - 1) / ((100 : ℕ) : ℝ))
          = -Real.cos (Real.pi / 100) := by
        rw [show Real.pi * (((100 : ℕ) : ℝ) - 1) / ((100 : ℕ) : ℝ)
            = Real.pi - Real.pi / 100 by push_cast; ring]
        exact Real.cos_pi_sub _
      rw [h1]
      nlinarith [Real.cos_le_one (Real.pi / 100)]
    · have h1 : Real.cos (Real.pi * (((100 : ℕ) : ℝ) - 1) / ((100 : ℕ) : ℝ))
          = -Real.cos (Real.pi / 100) := by
        rw [show Real.pi * (((100 : ℕ) : ℝ) - 1) / ((100 : ℕ) : ℝ)
            = Real.pi - Real.pi / 100 by push_cast; ring]
        exact Real.cos_pi_sub _
      rw [h1]
      have h2 : Real.pi ^ 2 < 10 := by nlinarith [Real.pi_lt_d2, Real.pi_pos]
      have h3 : 1 - (Real.pi / 100) ^ 2 / 2 ≤ Real.cos (Real.pi / 100) :=
        Real.one_sub_sq_div_two_le_cos
      nlinarith

/-- C7 counterexample: in step mode at epoch 50 with milestones
`[90, 120]` (no milestone passed, `s = 0`), the code does not overwrite
the parameter group: a group holding learning rate 5 keeps 5, instead
of being set to `base_lr · decay_rate^0 = 0.01` as the claim states. -/
theorem step_mode_epoch50_keeps_stale_lr :
    (adjust_learning_rate 50 ⟨false, 0.01, 150, [90, 120], 0.2⟩
        [{ lr := 5, rest := [] }]).map ParamGroup.lr = [5] ∧
    ¬ (adjust_learning_rate 50 ⟨false, 0.01, 150, [90, 120], 0.2⟩
        [{ lr := 5, rest := [] }]).map ParamGroup.lr = [(0.01 : ℝ)] := by
  have h : (adjust_learning_rate 50 ⟨false, 0.01, 150, [90, 120], 0.2⟩
      [{ lr := 5, rest := [] }]).map ParamGroup.lr = [5] := by
    simp [adjust_learning_rate]
  refine ⟨h, ?_⟩
  rw [h]
  intro hc
  have : (5 : ℝ) = 0.01 := by injection hc
  norm_num at this

/-- C7 amended: in step mode, when at least one milestone lies strictly
below the epoch the scheduler overwrites every group's learning rate
with `base_lr · decay_rate^s` (`s` = number of milestones strictly less
than the epoch), touching nothing else in the group; when no milestone
has passed it returns the groups unchanged, so the rate stays whatever
the optimizer already held (`base_lr` in a fresh run).  Scenario C
holds for groups whose current rate matches that behaviour. -/
theorem step_mode_decay_and_scenario_C
    (epoch : ℕ) (base rate : ℝ) (N : ℕ) (ms : List ℕ) (groups : List ParamGroup) :
    (0 < (ms.filter fun e => decide (e < epoch)).length →
      adjust_learning_rate epoch ⟨false, base, N, ms, rate⟩ groups
        = groups.map fun g =>
            { g with lr := base * rate ^ (ms.filter fun e => decide (e < epoch)).length }) ∧
    ((ms.filter fun e => decide (e < epoch)).length = 0 →
      adjust_learning_rate epoch ⟨false, base, N, ms, rate⟩ groups = groups) ∧
    (∀ r0, (adjust_learning_rate 50 ⟨false, 0.01, 150, [90, 120], 0.2⟩
        [{ lr := 0.01, rest := r0 }]).map ParamGroup.lr = [0.01] ∧
      (adjust_learning_rate 95 ⟨false, 0.01, 150, [90, 120], 0.2⟩
        [{ lr := 0.01, rest := r0 }]).map ParamGroup.lr = [0.002] ∧
      (adjust_learning_rate 125 ⟨false, 0.01, 150, [90, 120], 0.2⟩
        [{ lr := 0.002, rest := r0 }]).map ParamGroup.lr = [0.0004]) := by
  refine ⟨?_, ?_, ?_⟩
  · intro h
    simp only [adjust_learning_rate, if_neg (by simp : ¬ (false = true)), if_pos h]
  · intro h
    simp only [adjust_learning_rate, if_neg (by simp : ¬ (false = true))]
    rw [if_neg (by omega)]
  · intro r0
    refine ⟨?_, ?_, ?_⟩
    · simp [adjust_learning_rate]
    · simp [adjust_learning_rate]
      norm_num
    · simp [adjust_learning_rate]
      norm_num

/-- Closed instance of the step-mode theorem at epoch 95 (one milestone
passed): a group with a stale learning rate 7 is overwritten with
`0.01 · 0.2¹` and its other state is preserved. -/
theorem step_mode_decay_witness :
    adjust_learning_rate 95 ⟨false, 0.01, 150, [90, 120], 0.2⟩ [{ lr := 7, rest := [3] }]
      = [{ lr := 0.01 * 0.2 ^ (([90, 120].filter fun e => decide (e < 95)).length),
           rest := [3] }] :=
  (step_mode_decay_and_scenario_C 95 0.01 0.2 150 [90, 120]
    [{ lr := 7, rest := [3] }]).1 (by decide)

/-- Closed instance of the momentum-update theorem: the blend formula
at the off-diagonal state `egBlendState` (key value 3, query value 5,
`m = 9/10`), plus the start-identical and first-update-identity facts
for the freshly constructed `egState`. -/
theorem momentum_update_blends_witness :
    (((momentum_update_key_encoder egBlendState).encoder_k.map Param.value).get? 0
        = some (egBlendState.m * ({ value := 3, requires_grad := false } : Param).value
            + (1 - egBlendState.m) * ({ value := 5, requires_grad := true } : Param).value)) ∧
    (egState.encoder_k.map Param.value = egState.encoder_q.map Param.value ∧
     (momentum_update_key_encoder egState).encoder_k.map Param.value
        = egState.encoder_q.map Param.value) :=
  ⟨(momentum_update_blends_and_first_update_is_identity egBlendState).1 0
      { value := 3, requires_grad := false } { value := 5, requires_grad := true } rfl rfl,
   (momentum_update_blends_and_first_update_is_identity egState).2 true 2 (1/2) 1 [1] []
      [[5], [7]] egState rfl⟩

/-- Helper: the length of the key embedding batch equals the length of
the key image batch (the final unshuffle gathers by an index list of
that length). -/
theorem keyEmb_length (f : NetFns) (s : ISDState) (im_k : Mat) (randPerm : List ℕ) :
    (keyEmb f s im_k randPerm).length = im_k.length := by
  simp [keyEmb, gather, get_shuffle_ids, indexCopy_length]

/-- Helper: complete description of a successful `ISD.forward` run under
the queue-shape side conditions: the returned similarities are the
temperature-scaled products of the query/key embeddings with the
pre-enqueue queue, and the returned state is the momentum-updated state
with the key batch written at the old pointer. -/
theorem forward_run_spec (f : NetFns) (s : ISDState) (im_q im_k : Mat) (randPerm : List ℕ)
    (hdvd : im_k.length ∣ s.K) (hqlen : s.queue.length = s.K)
    (hroom : s.queue_ptr + im_k.length ≤ s.K) :
    (ISD.forward f s im_q im_k randPerm).2
      = .ok (scaleDiv (mmT (queryEmb f s im_q) s.queue) s.T,
             scaleDiv (mmT (keyEmb f s im_k randPerm) s.queue) s.T,
             { momentum_update_key_encoder s with
               queue := writeSlice s.queue s.queue_ptr (keyEmb f s im_k randPerm),
               queue_ptr := (s.queue_ptr + im_k.length) % s.K }) := by
  have hklen := keyEmb_length f s im_k randPerm
  have hdq : dequeue_and_enqueue s.K s.queue s.queue_ptr (keyEmb f s im_k randPerm)
      = .ok (writeSlice s.queue s.queue_ptr (keyEmb f s im_k randPerm),
             (s.queue_ptr + im_k.length) % s.K) := by
    rw [dequeue_and_enqueue,
      if_neg (by rw [hklen]; simp [Nat.mod_eq_zero_of_dvd hdvd]),
      if_neg (by rw [hklen]; omega), hklen]
  have hstep : (ISD.forward f s im_q im_k randPerm).2
      = (dequeue_and_enqueue s.K s.queue s.queue_ptr (keyEmb f s im_k randPerm)).map
          (fun qp => (scaleDiv (mmT (queryEmb f s im_q) s.queue) s.T,
            scaleDiv (mmT (keyEmb f s im_k randPerm) s.queue) s.T,
            { momentum_update_key_encoder s with queue := qp.1, queue_ptr := qp.2 })) := rfl
  rw [hstep, hdq]
  rfl

/-- C1: in every training step with well-formed queue shape, the
similarities returned by the forward pass are `(q · Memᵗ)/T` and
`(k · Memᵗ)/T` computed against the queue exactly as it was when the
step began (the pre-enqueue snapshot `Mem = s.queue`), the keys `k` are
enqueued only into the returned state afterwards, and in the operation
trace both similarity products strictly precede the enqueue. -/
theorem similarities_use_preenqueue_queue
    (f : NetFns) (s : ISDState) (im_q im_k : Mat) (randPerm : List ℕ)
    (hdvd : im_k.length ∣ s.K) (hqlen : s.queue.length = s.K)
    (hroom : s.queue_ptr + im_k.length ≤ s.K) :
    (∃ s2, (ISD.forward f s im_q im_k randPerm).2
        = .ok (scaleDiv (mmT (queryEmb f s im_q) s.queue) s.T,
               scaleDiv (mmT (keyEmb f s im_k randPerm) s.queue) s.T, s2) ∧
      s2.queue = writeSlice s.queue s.queue_ptr (keyEmb f s im_k randPerm) ∧
      s2.queue_ptr = (s.queue_ptr + im_k.length) % s.K) ∧
    (ISD.forward f s im_q im_k randPerm).1.indexOf FwOp.simQuery
      < (ISD.forward f s im_q im_k randPerm).1.indexOf FwOp.enqueueKeys ∧
    (ISD.forward f s im_q im_k randPerm).1.indexOf FwOp.simKey
      < (ISD.forward f s im_q im_k randPerm).1.indexOf FwOp.enqueueKeys := by
  have htr : (ISD.forward f s im_q im_k randPerm).1
      = [FwOp.encodeQuery, FwOp.predictQuery, FwOp.momentumUpdate, FwOp.shuffleKeys,
         FwOp.encodeKey, FwOp.unshuffleKeys, FwOp.snapshotQueue, FwOp.simQuery,
         FwOp.simKey, FwOp.enqueueKeys] := rfl
  refine ⟨⟨_, forward_run_spec f s im_q im_k randPerm hdvd hqlen hroom, rfl, rfl⟩, ?_, ?_⟩
  · rw [htr]
    decide
  · rw [htr]
    decide

/-- Closed instance of the pre-enqueue similarity theorem on a concrete
run: state `egState` (queue `[[5], [7]]`, pointer 0, `K = 2`), query
image `[[1]]`, key image `[[2]]`, batch size 1. -/
theorem similarities_use_preenqueue_witness :
    (∃ s2, (ISD.forward idNetFns egState [[1]] [[2]] [0]).2
        = .ok (scaleDiv (mmT (queryEmb idNetFns egState [[1]]) egState.queue) egState.T,
               scaleDiv (mmT (keyEmb idNetFns egState [[2]] [0]) egState.queue) egState.T, s2) ∧
      s2.queue = writeSlice egState.queue egState.queue_ptr (keyEmb idNetFns egState [[2]] [0]) ∧
      s2.queue_ptr = (egState.queue_ptr + 1) % egState.K) ∧
    (ISD.forward idNetFns egState [[1]] [[2]] [0]).1.indexOf FwOp.simQuery
      < (ISD.forward idNetFns egState [[1]] [[2]] [0]).1.indexOf FwOp.enqueueKeys ∧
    (ISD.forward idNetFns egState [[1]] [[2]] [0]).1.indexOf FwOp.simKey
      < (ISD.forward idNetFns egState [[1]] [[2]] [0]).1.indexOf FwOp.enqueueKeys :=
  similarities_use_preenqueue_queue idNetFns egState [[1]] [[2]] [0]
    (by decide) (by decide) (by decide)

/-- C6 counterexample: on a concrete run of the embedded `ISD.forward`,
the momentum update of the key encoder is NOT performed before the
query view is encoded — the source encodes the query (lines 164-167)
and only then updates the key encoder (line 172), so the trace position
of the momentum update is strictly after that of the query encoding. -/
theorem momentum_update_not_before_query_encode :
    ¬ ((ISD.forward idNetFns egState [[1]] [[2]] [0]).1.indexOf FwOp.momentumUpdate
      < (ISD.forward idNetFns egState [[1]] [[2]] [0]).1.indexOf FwOp.encodeQuery) := by
  decide

/-- C6 amended: in every training step's forward pass the query view is
encoded first, then the key encoder receives its momentum update, and
only then is the key view encoded (so the key output reflects the
updated key weights); the key encoding in turn precedes the similarity
computation. -/
theorem forward_query_encode_then_momentum_then_key_encode
    (f : NetFns) (s : ISDState) (im_q im_k : Mat) (randPerm : List ℕ) :
    (ISD.forward f s im_q im_k randPerm).1.indexOf FwOp.encodeQuery
      < (ISD.forward f s im_q im_k randPerm).1.indexOf FwOp.momentumUpdate ∧
    (ISD.forward f s im_q im_k randPerm).1.indexOf FwOp.momentumUpdate
      < (ISD.forward f s im_q im_k randPerm).1.indexOf FwOp.encodeKey ∧
    (ISD.forward f s im_q im_k randPerm).1.indexOf FwOp.encodeKey
      < (ISD.forward f s im_q im_k randPerm).1.indexOf FwOp.simKey := by
  have htr : (ISD.forward f s im_q im_k randPerm).1
      = [FwOp.encodeQuery, FwOp.predictQuery, FwOp.momentumUpdate, FwOp.shuffleKeys,
         FwOp.encodeKey, FwOp.unshuffleKeys, FwOp.snapshotQueue, FwOp.simQuery,
         FwOp.simKey, FwOp.enqueueKeys] := rfl
  rw [htr]
  refine ⟨by decide, by decide, by decide⟩

/-- C9 counterexample: queue size 6 is not divisible by batch size 4,
yet startup succeeds — `ISD.init` (and everything else before the
training loop) performs no divisibility check — and the error only
surfaces inside the first training step's forward pass, as the assert
of `_dequeue_and_enqueue`.  This refutes "fails fatally at startup,
aborting before any training step begins". -/
theorem mismatch_passes_startup_fails_in_first_step :
    ISD.init true 6 (1/2) 1 [1] [] [[0], [0], [0], [0], [0], [0]] = some egState6 ∧
    (ISD.forward idNetFns egState6 [[1]] [[1], [2], [3], [4]] [0, 1, 2, 3]).2
      = .error "assert self.K % batch_size == 0" := by
  constructor
  · rfl
  · rfl

/-- C9 amended: a queue-size/batch-size mismatch is NOT caught at
startup: model construction succeeds for every queue size, and the
violation is detected by the `assert self.K % batch_size == 0` inside
`_dequeue_and_enqueue`, so the program aborts during the first
training step's forward pass (after the similarities are computed),
not before training begins. -/
theorem mismatch_detected_at_first_enqueue
    (K : ℕ) (m T : ℚ) (q0 p0 : List ℚ) (queue0 : Mat) (s : ISDState)
    (f : NetFns) (im_q im_k : Mat) (randPerm : List ℕ)
    (hinit : ISD.init true K m T q0 p0 queue0 = some s)
    (hbad : ¬ im_k.length ∣ K) :
    (∃ s0, ISD.init true K m T q0 p0 queue0 = some s0) ∧
    (ISD.forward f s im_q im_k randPerm).2 = .error "assert self.K % batch_size == 0" := by
  refine ⟨⟨s, hinit⟩, ?_⟩
  have hK : s.K = K := by
    rw [ISD.init, if_pos rfl] at hinit
    cases hinit
    rfl
  have hklen := keyEmb_length f s im_k randPerm
  have hmod : s.K % (keyEmb f s im_k randPerm).length ≠ 0 := by
    rw [hklen, hK]
    intro hz
    exact hbad (Nat.dvd_iff_mod_eq_zero.mpr hz)
  have hdq : dequeue_and_enqueue s.K s.queue s.queue_ptr (keyEmb f s im_k randPerm)
      = .error "assert self.K % batch_size == 0" := by
    rw [dequeue_and_enqueue, if_pos hmod]
  have hstep : (ISD.forward f s im_q im_k randPerm).2
      = (dequeue_and_enqueue s.K s.queue s.queue_ptr (keyEmb f s im_k randPerm)).map
          (fun qp => (scaleDiv (mmT (queryEmb f s im_q) s.queue) s.T,
            scaleDiv (mmT (keyEmb f s im_k randPerm) s.queue) s.T,
            { momentum_update_key_encoder s with
              queue := qp.1, queue_ptr := qp.2 })) := rfl
  rw [hstep, hdq]
  rfl

/-- Closed instance of the amended C9 theorem: `K = 6`, batch size 4. -/
theorem mismatch_detected_witness :
    (∃ s0, ISD.init true 6 (1/2) 1 [1] [] [[0], [0], [0], [0], [0], [0]] = some s0) ∧
    (ISD.forward idNetFns egState6 [[1]] [[9], [9], [9], [9]] [0, 1, 2, 3]).2
      = .error "assert self.K % batch_size == 0" :=
  mismatch_detected_at_first_enqueue 6 (1/2) 1 [1] [] [[0], [0], [0], [0], [0], [0]]
    egState6 idNetFns [[1]] [[9], [9], [9], [9]] [0, 1, 2, 3] rfl (by decide)

/-- Helper: a `mapIdx` that only rewrites entries with `requires_grad`
set is the identity on a list of frozen parameters. -/
theorem mapIdx_skip_frozen (g : ℕ → Param → Param) (ps : List Param)
    (h : ∀ p ∈ ps, p.requires_grad = false) :
    (ps.mapIdx fun i p => if p.requires_grad then g i p else p) = ps := by
  induction ps generalizing g with
  | nil => rfl
  | cons p ps2 ih =>
    rw [List.mapIdx_cons]
    have hp : p.requires_grad = false := h p (List.mem_cons_self _ _)
    rw [hp]
    simp only [Bool.false_eq_true, if_false]
    congr 1
    exact ih (fun i q => g (i + 1) q) (fun q hq => h q (List.mem_cons_of_mem _ hq))

/-- Helper: the optimizer write-back never touches frozen parameters. -/
theorem sgdWrite_frozen (u : ℕ → ℚ → ℚ) (off : ℕ) (ps : List Param)
    (h : ∀ p ∈ ps, p.requires_grad = false) : sgdWrite u off ps = ps :=
  mapIdx_skip_frozen _ ps h

/-- Helper: the momentum blend writes only `.data` values, so a frozen
key-parameter list stays frozen. -/
theorem momentumBlend_frozen (ks qs : List Param) (m : ℚ)
    (h : ∀ p ∈ ks, p.requires_grad = false) :
    ∀ p ∈ momentumBlend ks qs m, p.requires_grad = false := by
  intro p hp
  rw [momentumBlend] at hp
  rcases List.mem_map.mp hp with ⟨pair, hpair, rfl⟩
  exact h pair.1 (List.of_mem_zip hpair).1

/-- C10: for a freshly constructed model, every key-encoder parameter
has gradient tracking disabled, the optimizer's parameter collection
(`[p for p in isd.parameters() if p.requires_grad]`) consists exactly
of the query encoder and prediction head parameters (no key parameter
is in it), and across a full training step — forward pass (with its
momentum update) followed by an arbitrary optimizer step — the key
parameters change only through the momentum blend. -/
theorem key_encoder_excluded_from_optimizer
    (K : ℕ) (m T : ℚ) (q0 p0 : List ℚ) (queue0 : Mat) (s : ISDState)
    (hinit : ISD.init true K m T q0 p0 queue0 = some s)
    (f : NetFns) (im_q im_k : Mat) (randPerm : List ℕ) (u : ℕ → ℚ → ℚ)
    (hdvd : im_k.length ∣ s.K) (hqlen : s.queue.length = s.K)
    (hroom : s.queue_ptr + im_k.length ≤ s.K) :
    (∀ p ∈ s.encoder_k, p.requires_grad = false) ∧
    trainableParams s = s.encoder_q ++ s.predict_q ∧
    (∃ sq sk s2, (ISD.forward f s im_q im_k randPerm).2 = .ok (sq, sk, s2) ∧
      (optimizerStep s2 u).encoder_k = momentumBlend s.encoder_k s.encoder_q s.m) := by
  have hs : s =
      { K := K, m := m, T := T
        encoder_q := q0.map fun v => { value := v, requires_grad := true }
        encoder_k := q0.map fun v => { value := v, requires_grad := false }
        predict_q := p0.map fun v => { value := v, requires_grad := true }
        queue := queue0, queue_ptr := 0 } := by
    rw [ISD.init, if_pos rfl] at hinit
    cases hinit
    rfl
  have hkfrozen : ∀ p ∈ s.encoder_k, p.requires_grad = false := by
    rw [hs]
    intro p hp
    rcases List.mem_map.mp hp with ⟨v, hv, rfl⟩
    rfl
  refine ⟨hkfrozen, ?_, ?_⟩
  · rw [hs]
    simp only [trainableParams, List.filter_append]
    rw [List.filter_eq_self.mpr (fun a ha => by
        rcases List.mem_map.mp ha with ⟨v, _, rfl⟩; rfl),
      List.filter_eq_nil_iff.mpr (fun a ha => by
        rcases List.mem_map.mp ha with ⟨v, _, rfl⟩; simp),
      List.filter_eq_self.mpr (fun a ha => by
        rcases List.mem_map.mp ha with ⟨v, _, rfl⟩; rfl)]
    simp
  · refine ⟨_, _, _, forward_run_spec f s im_q im_k randPerm hdvd hqlen hroom, ?_⟩
    show (optimizerStep { momentum_update_key_encoder s with
        queue := writeSlice s.queue s.queue_ptr (keyEmb f s im_k randPerm),
        queue_ptr := (s.queue_ptr + im_k.length) % s.K } u).encoder_k
      = momentumBlend s.encoder_k s.encoder_q s.m
    simp only [optimizerStep, momentum_update_key_encoder]
    exact sgdWrite_frozen u _ _ (momentumBlend_frozen _ _ _ hkfrozen)

/-- Closed instance of the optimizer-exclusion theorem on the concrete
model `egState` with an arbitrary nontrivial update `v ↦ v + 1`. -/
theorem key_encoder_excluded_witness :
    (∀ p ∈ egState.encoder_k, p.requires_grad = false) ∧
    trainableParams egState = egState.encoder_q ++ egState.predict_q ∧
    (∃ sq sk s2, (ISD.forward idNetFns egState [[1]] [[2]] [0]).2 = .ok (sq, sk, s2) ∧
      (optimizerStep s2 (fun _ v => v + 1)).encoder_k
        = momentumBlend egState.encoder_k egState.encoder_q egState.m) :=
  key_encoder_excluded_from_optimizer 2 (1/2) 1 [1] [] [[5], [7]] egState rfl
    idNetFns [[1]] [[2]] [0] (fun _ v => v + 1) (by decide) (by decide) (by decide)

/-- C5 (code defect): the queue initialisation
`nn.functional.normalize(torch.randn(K, out_dim), dim=0)` normalises
along `dim=0` — across the `K` queue slots — not along each stored row.
At the concrete draw `[[3, 0], [4, 3]]` the initialised queue is
`[[3/5, 0], [4/5, 1]]`: the first stored vector has squared L2 norm
`9/25 ≠ 1`, so the rows of the freshly initialised queue are not unit
vectors, contradicting the claimed invariant (the enqueue path, by
contrast, row-normalises with `dim=1`). -/
theorem queue_init_rows_not_unit_norm :
    queueInit [[3, 0], [4, 3]] = [[3/5, 0], [4/5, 1]] ∧
    l2normSq ((queueInit [[3, 0], [4, 3]]).getD 0 []) = 9/25 ∧
    (9/25 : ℝ) ≠ 1 := by
  have hs25 : Real.sqrt ((3 : ℝ) ^ 2 + ((4 : ℝ) ^ 2 + 0)) = 5 := by
    rw [show (3 : ℝ) ^ 2 + ((4 : ℝ) ^ 2 + 0) = 5 ^ 2 by norm_num,
      Real.sqrt_sq (by norm_num : (0 : ℝ) ≤ 5)]
  have hs9 : Real.sqrt ((0 : ℝ) ^ 2 + ((3 : ℝ) ^ 2 + 0)) = 3 := by
    rw [show (0 : ℝ) ^ 2 + ((3 : ℝ) ^ 2 + 0) = 3 ^ 2 by norm_num,
      Real.sqrt_sq (by norm_num : (0 : ℝ) ≤ 3)]
  have hinit : queueInit [[3, 0], [4, 3]] = [[3/5, 0], [4/5, 1]] := by
    rw [queueInit]
    simp only [List.map, List.length_cons, List.length_nil, List.range_succ, List.range_zero,
      List.nil_append, List.cons_append, List.getD, List.get?_cons_zero, List.get?_cons_succ,
      List.get?_nil, List.getElem?_cons_zero, List.getElem?_cons_succ, List.sum_cons,
      List.sum_nil, Option.getD_some]
    rw [hs25, hs9, max_eq_left (by norm_num), max_eq_left (by norm_num)]
    norm_num
  refine ⟨hinit, ?_, by norm_num⟩
  rw [hinit]
  simp only [List.getD, List.getElem?_cons_zero, Option.getD_some, l2normSq,
    List.map, List.sum_cons, List.sum_nil]
  norm_num

end ISDModel
